import Mathlib

/- Verification of the haptic-guess repository.

   Shallow embedding of:
   - src/haptic_sync.py : analyze_full_audio, detect_precise_events
   - src/timeline_classify.py : classify_with_timeline

   Modelling conventions.
   * Python floats are modelled as exact rationals (ℚ).
   * The audio file is represented by its sample count n (the sample data
     itself only reaches the embedded logic through the feature extractors).
   * The external feature extractors (librosa RMS / spectral centroid /
     onset-strength, the yamnet scorer) are black boxes and enter as
     function parameters of the embedded functions.
   * librosa.onset.onset_detect (peak picking) is not part of the
     repository; it is modelled from the spec, see onsetDetect below.
   * File paths, printing and I/O are outside the embedding. -/

namespace HapticGuess

/-- Python's builtin round(x) to an integer: banker's rounding
    (round half to even). -/
def pyRound (x : ℚ) : ℤ :=
  if Int.fract x < 1/2 then ⌊x⌋
  else if 1/2 < Int.fract x then ⌊x⌋ + 1
  else if ⌊x⌋ % 2 = 0 then ⌊x⌋ else ⌊x⌋ + 1

/-- Python's int(x) applied to a float: truncation toward zero. -/
def pyTrunc (x : ℚ) : ℤ := if 0 ≤ x then ⌊x⌋ else -⌊-x⌋

/-- Python round(x, 1). -/
def round1 (x : ℚ) : ℚ := (pyRound (x * 10) : ℚ) / 10

/-- Python round(x, 2). -/
def round2 (x : ℚ) : ℚ := (pyRound (x * 100) : ℚ) / 100

/-- Python round(x, 3). -/
def round3 (x : ℚ) : ℚ := (pyRound (x * 1000) : ℚ) / 1000

/-- Python round(x, 4). -/
def round4 (x : ℚ) : ℚ := (pyRound (x * 10000) : ℚ) / 10000

/- ----------------------------------------------------------------
   Full-timeline mode: analyze_full_audio (src/haptic_sync.py 13-84).
   ---------------------------------------------------------------- -/

/-- Sample rate used by haptic_sync.py (librosa.load(..., sr=22050)). -/
def SR : ℕ := 22050

/-- One entry of the per-second timeline
    (the dict built at src/haptic_sync.py lines 69-76). -/
structure Slot where
  second : ℕ
  intensity : ℤ
  vibrate : Bool
  strength : String
  action : String
  impacts : ℕ
  deriving Repr, DecidableEq

/-- Result record of analyze_full_audio (src/haptic_sync.py 78-84).
    The file-path field is omitted (I/O). -/
structure FullResult where
  duration_sec : ℚ
  total_seconds : ℕ
  vibration_seconds : ℕ
  timeline : List Slot
  deriving Repr, DecidableEq

/-- The body of the per-second loop (src/haptic_sync.py 30-76) for second
    `sec`.  `max_energy` is the black-box float(np.max(librosa.feature.rms))
    of the second's segment, `num_impacts` the black-box onset count of the
    segment; both are indexed by the second.  (avg_energy, line 34, is
    computed by the source but used in no decision and no output field.) -/
def mkSlot (max_energy : ℕ → ℚ) (num_impacts : ℕ → ℕ) (sec : ℕ) : Slot :=
  let intensity : ℤ := min 100 (pyTrunc (max_energy sec * 500))
  let sv : String × Bool :=
    if 50 ≤ intensity then ("strong", true)
    else if 20 ≤ intensity then ("medium", true)
    else if 5 ≤ intensity then ("light", false)
    else ("none", false)
  let action : String :=
    if intensity < 5 then "silence"
    else if 2 < num_impacts sec ∧ 15 < intensity then "slice"
    else if 50 ≤ intensity then "impact"
    else "sound"
  { second := sec, intensity := intensity, vibrate := sv.2,
    strength := sv.1, action := action, impacts := num_impacts sec }

/-- analyze_full_audio (src/haptic_sync.py 13-84) for a file of `n` samples
    at 22050 Hz.  The loop `for sec in range(int(duration) + 1)` with the
    `break` on `start >= len(y)` is a takeWhile over that range:
    start = sec*sr is monotone in sec, so the break point is the first
    failure of `sec*sr < n`. -/
def analyze_full_audio (n : ℕ) (max_energy : ℕ → ℚ) (num_impacts : ℕ → ℕ) :
    FullResult :=
  let timeline :=
    (((List.range (n / SR + 1)).takeWhile (fun sec => decide (sec * SR < n))).map
      (mkSlot max_energy num_impacts))
  { duration_sec := round2 ((n : ℚ) / (SR : ℚ))
    total_seconds := timeline.length
    vibration_seconds := (timeline.filter (fun t => t.vibrate)).length
    timeline := timeline }

/- ----------------------------------------------------------------
   Precise mode: detect_precise_events (src/haptic_sync.py 87-157).
   ---------------------------------------------------------------- -/

/-- threshold = max(0.05, 1.0 - sensitivity)  (src/haptic_sync.py line 97). -/
def effectiveThreshold (sensitivity : ℚ) : ℚ := max 0.05 (1 - sensitivity)

/-- Time in milliseconds of onset-envelope frame `f`
    (librosa.frames_to_time at hop_length=256, sr=22050). -/
def frameTimeMs (f : ℕ) : ℚ := (f : ℚ) * 256 * 1000 / 22050

/-- Whether frame `f` is at least `min_gap_ms` milliseconds after the last
    accepted frame `last`. -/
def gapOk (min_gap_ms : ℚ) (last f : ℕ) : Bool :=
  decide (frameTimeMs last + min_gap_ms ≤ frameTimeMs f)

/-- Modelled from the spec: librosa.onset.onset_detect's peak acceptance
    (called at src/haptic_sync.py 99-106) is not code of this repository.
    Per spec §4.1: peaks within minimum_gap of a previously accepted peak
    are discarded — greedy left-to-right suppression, not clustering.
    `last` is the most recently accepted frame, if any. -/
def pickPeaks (min_gap_ms : ℚ) : Option ℕ → List (ℕ × ℚ) → List (ℕ × ℚ)
  | _, [] => []
  | none, p :: rest => p :: pickPeaks min_gap_ms (some p.1) rest
  | some last, p :: rest =>
    if gapOk min_gap_ms last p.1 then p :: pickPeaks min_gap_ms (some p.1) rest
    else pickPeaks min_gap_ms (some last) rest

/-- Modelled from the spec: the Event Detector (§4.1) over an onset-strength
    envelope sampled at frames (hop 256).  Peaks below the threshold are
    discarded, then peaks too close to a previously accepted peak are
    discarded greedily left-to-right.  Output: (frame, raw strength) pairs. -/
def onsetDetect (onset_env : List ℚ) (delta min_gap_ms : ℚ) : List (ℕ × ℚ) :=
  pickPeaks min_gap_ms none (onset_env.enum.filter (fun p => decide (delta ≤ p.2)))

/-- Onset detection of detect_precise_events (src/haptic_sync.py 96-108):
    the sensitivity is turned into the threshold of line 97, then the
    (spec-modelled) detector runs over the envelope. -/
def detectOnsets (onset_env : List ℚ) (sensitivity min_gap_ms : ℚ) : List (ℕ × ℚ) :=
  onsetDetect onset_env (effectiveThreshold sensitivity) min_gap_ms

/-- np.max over a nonempty list ([] is mapped to 0; the source never takes
    the max of an empty array, cf. the len>0 guard at line 111). -/
def listMax : List ℚ → ℚ
  | [] => 0
  | [x] => x
  | x :: y :: rest => max x (listMax (y :: rest))

/-- Lines 109-112: onset_strengths = onset_env[onsets] if len(onsets) > 0
    else []; if nonempty, divided by np.max(onset_strengths).  The frame
    indices are kept alongside to preserve the zip of line 116. -/
def normalizeOnsets (onsets : List (ℕ × ℚ)) : List (ℕ × ℚ) :=
  if onsets.isEmpty then []
  else onsets.map (fun p => (p.1, p.2 / listMax (onsets.map Prod.snd)))

/-- One event of detect_precise_events (the dict of src/haptic_sync.py
    142-149).  The file-path field is omitted (I/O). -/
structure HapticEvent where
  time_ms : ℚ
  time_sec : ℚ
  intensity : ℚ
  intensity_percent : ℤ
  type : String
  duration_ms : ℤ
  deriving Repr, DecidableEq

/-- Result record of detect_precise_events (src/haptic_sync.py 151-157). -/
structure PreciseResult where
  duration_sec : ℚ
  total_events : ℕ
  sensitivity : ℚ
  events : List HapticEvent
  deriving Repr, DecidableEq

/-- Loop body of src/haptic_sync.py 116-149 for one (frame, normalized
    strength) pair.  `centroid_mean` and `rms_mean` are the black-box
    float(np.mean(..)) of librosa's spectral_centroid / rms over the
    segment y[start_sample:end_sample], indexed by start_sample (the
    file's length n fixes end_sample). -/
def mkPreciseEvent (n : ℕ) (centroid_mean rms_mean : ℤ → ℚ) (p : ℕ × ℚ) :
    Option HapticEvent :=
  let time : ℚ := (p.1 : ℚ) * 256 / 22050
  let strength : ℚ := p.2
  let start_sample : ℤ := pyTrunc (time * 22050)
  let end_sample : ℤ := min (start_sample + pyTrunc (0.05 * 22050)) (n : ℤ)
  if start_sample < end_sample then
    let brightness : ℚ := min 1 (centroid_mean start_sample / 5000)
    let loudness : ℚ := min 1 (rms_mean start_sample * 15)
    let intensity : ℚ := min 1 (strength * 0.6 + loudness * 0.4)
    let haptic_type : String :=
      if (0.5 : ℚ) < brightness then "sharp"
      else if (0.25 : ℚ) < brightness then "medium"
      else "heavy"
    some { time_ms := round1 (time * 1000), time_sec := round3 time,
           intensity := round3 intensity,
           intensity_percent := pyTrunc (intensity * 100),
           type := haptic_type,
           duration_ms := pyTrunc (20 + intensity * 30) }
  else none

/-- detect_precise_events (src/haptic_sync.py 87-157) for a file of `n`
    samples at 22050 Hz with onset-strength envelope `onset_env` (one entry
    per 256-sample hop).  Source defaults: sensitivity=0.8, min_gap_ms=30. -/
def detect_precise_events (n : ℕ) (onset_env : List ℚ)
    (centroid_mean rms_mean : ℤ → ℚ) (sensitivity min_gap_ms : ℚ) :
    PreciseResult :=
  let onsets := detectOnsets onset_env sensitivity min_gap_ms
  let events := (normalizeOnsets onsets).filterMap
    (mkPreciseEvent n centroid_mean rms_mean)
  { duration_sec := round3 ((n : ℚ) / 22050)
    total_events := events.length
    sensitivity := sensitivity
    events := events }

/- ----------------------------------------------------------------
   Sliding-window sound classifier: classify_with_timeline
   (src/timeline_classify.py 16-120).
   ---------------------------------------------------------------- -/

/-- Modelled from the spec: params.py is not in the repository; §4.4 fixes
    the classifier's sample rate at 16 kHz. -/
def SAMPLE_RATE : ℕ := 16000

/-- Model window length in samples (src/timeline_classify.py line 36). -/
def EXPECTED_SAMPLES : ℕ := 15600

/-- Window length in seconds (line 35). -/
def CHUNK_DURATION : ℚ := 0.975

/-- Hop in seconds (line 37). -/
def HOP_DURATION : ℚ := 0.5

/-- HOP_SAMPLES = int(params.SAMPLE_RATE * HOP_DURATION) (line 38). -/
def HOP_SAMPLES : ℕ := 8000

/-- One timeline entry (the dict of src/timeline_classify.py 96-103). -/
structure SoundLabelEvent where
  time_start : ℚ
  time_end : ℚ
  time_center : ℚ
  sound : String
  confidence : ℚ
  class_id : ℕ
  deriving Repr, DecidableEq

/-- Result record of classify_with_timeline (src/timeline_classify.py
    109-118).  The file-path field is omitted (I/O). -/
structure ClassifyResult where
  duration : ℚ
  sample_rate : ℕ
  chunk_duration : ℚ
  hop_duration : ℚ
  threshold : ℚ
  total_events : ℕ
  timeline : List SoundLabelEvent
  deriving Repr, DecidableEq

/-- The window starts visited by the chunk loop (line 66):
    range(0, len(waveform) - EXPECTED_SAMPLES + 1, HOP_SAMPLES).
    In ℕ, `n + 1 - EXPECTED_SAMPLES` is the clamped stop value and the
    element count is its ceiling division by the hop. -/
def windowStarts (n : ℕ) : List ℕ :=
  (List.range ((n + 1 - EXPECTED_SAMPLES + (HOP_SAMPLES - 1)) / HOP_SAMPLES)).map
    (fun i => i * HOP_SAMPLES)

/-- Allow-list filter of src/timeline_classify.py 91-94: with a (Python
    truthy, i.e. nonempty) target list, the event is kept iff some target
    string occurs case-insensitively inside the class name. -/
def targetMatch : Option (List String) → String → Bool
  | none, _ => true
  | some ts, sound_name =>
    if ts.isEmpty then true
    else ts.any (fun t => decide (t.toLower.toList <:+: sound_name.toLower.toList))

/-- Sort key of line 106: key=lambda x: (x["time_start"], -x["confidence"]),
    as a boolean total preorder. -/
def sortKeyLE (a b : SoundLabelEvent) : Bool :=
  decide (a.time_start < b.time_start ∨
    (a.time_start = b.time_start ∧ b.confidence ≤ a.confidence))

/-- The events appended by the chunk loop (src/timeline_classify.py 66-103)
    before sorting.  `chunk_scores` is the black-box per-class mean model
    score vector of the window starting at the given sample
    (np.mean(scores, axis=0), line 76). -/
def emittedEvents (n : ℕ) (chunk_scores : ℕ → List ℚ)
    (yamnet_classes : List String) (threshold : ℚ)
    (target_sounds : Option (List String)) : List SoundLabelEvent :=
  (windowStarts n).flatMap (fun start_sample =>
    let start_time : ℚ := (start_sample : ℚ) / (SAMPLE_RATE : ℚ)
    let end_time : ℚ := start_time + CHUNK_DURATION
    let center_time : ℚ := start_time + CHUNK_DURATION / 2
    ((chunk_scores start_sample).enum.filter
        (fun p => decide (threshold ≤ p.2))).filterMap
      (fun p =>
        let sound_name := yamnet_classes.getD p.1 ""
        if targetMatch target_sounds sound_name then
          some { time_start := round3 start_time, time_end := round3 end_time,
                 time_center := round3 center_time, sound := sound_name,
                 confidence := round4 p.2, class_id := p.1 }
        else none))

/-- classify_with_timeline (src/timeline_classify.py 16-120): emit events
    window by window, then sort by (time_start, -confidence) with Python's
    stable sort.  Source default: threshold=0.1. -/
def classify_with_timeline (n : ℕ) (chunk_scores : ℕ → List ℚ)
    (yamnet_classes : List String) (threshold : ℚ)
    (target_sounds : Option (List String)) : ClassifyResult :=
  let timeline :=
    (emittedEvents n chunk_scores yamnet_classes threshold target_sounds).mergeSort
      sortKeyLE
  { duration := round3 ((n : ℚ) / (SAMPLE_RATE : ℚ))
    sample_rate := SAMPLE_RATE
    chunk_duration := CHUNK_DURATION
    hop_duration := HOP_DURATION
    threshold := threshold
    total_events := timeline.length
    timeline := timeline }

/- ================= THEOREMS ================= -/

/- Helper lemmas on the per-second loop of analyze_full_audio. -/

lemma takeWhile_lt_range' (c : ℕ) : ∀ (m s : ℕ),
    (List.range' s m).takeWhile (fun k => decide (k < c)) =
      List.range' s (min m (c - s)) := by
  intro m
  induction m with
  | zero => intro s; simp
  | succ m ih =>
    intro s
    rw [show List.range' s (m + 1) = s :: List.range' (s + 1) m from rfl,
      List.takeWhile_cons]
    by_cases h : s < c
    · rw [if_pos (by simpa using h), ih (s + 1)]
      have hc : min (m + 1) (c - s) = min m (c - (s + 1)) + 1 := by omega
      rw [hc]
      rfl
    · rw [if_neg (by simpa using h)]
      have hc : min (m + 1) (c - s) = 0 := by omega
      rw [hc]
      rfl

lemma analyze_timeline_eq (n : ℕ) (me : ℕ → ℚ) (ni : ℕ → ℕ) :
    (analyze_full_audio n me ni).timeline
      = (List.range ((n + SR - 1) / SR)).map (mkSlot me ni) := by
  have hpred : (fun sec => decide (sec * SR < n))
      = (fun sec => decide (sec < (n + SR - 1) / SR)) := by
    funext k
    rw [decide_eq_decide]
    simp only [SR]
    omega
  have hmin : min (n / SR + 1) ((n + SR - 1) / SR - 0) = (n + SR - 1) / SR := by
    simp only [SR]
    omega
  show ((List.range (n / SR + 1)).takeWhile
      (fun sec => decide (sec * SR < n))).map (mkSlot me ni) = _
  rw [hpred, List.range_eq_range', takeWhile_lt_range', hmin,
    ← List.range_eq_range']

/-- C1 (amended): full-timeline mode produces exactly one Slot per integer
    second strictly below the duration, i.e. seconds 0,1,…,⌈duration⌉-1, so
    the slot count is ⌈duration⌉ = ⌈n/22050⌉ — not floor(duration)+1: for a
    buffer that is an exact whole number of seconds the final loop
    iteration hits `start >= len(y)` and breaks, and an empty buffer gives
    0 slots. -/
theorem full_mode_one_slot_per_second (n : ℕ) (max_energy : ℕ → ℚ)
    (num_impacts : ℕ → ℕ) :
    (analyze_full_audio n max_energy num_impacts).timeline.map
        (fun s => s.second) = List.range ((n + SR - 1) / SR)
    ∧ (analyze_full_audio n max_energy num_impacts).timeline.length
        = (n + SR - 1) / SR := by
  have h := analyze_timeline_eq n max_energy num_impacts
  constructor
  · rw [h, List.map_map]
    have hid : ((fun s : Slot => s.second) ∘ mkSlot max_energy num_impacts)
        = id := by
      funext k
      rfl
    rw [hid, List.map_id]
  · rw [h, List.length_map, List.length_range]

/-- C1 counterexample: a 3.0-second buffer (66150 samples at 22050 Hz,
    duration exactly 3) yields 3 slots, while the claimed count
    floor(duration)+1 is 4. -/
theorem full_mode_slot_count_counterexample :
    (analyze_full_audio 66150 (fun _ => 0) (fun _ => 0)).timeline.length = 3
    ∧ (3 : ℕ) ≠ 66150 / SR + 1 := by
  constructor
  · decide
  · decide

/-- C4 (amended): for every slot of the full-mode timeline the integer
    intensity is min(100, int(max_rms·500)) where int() TRUNCATES toward
    zero (not rounding to nearest), and the strength label is strong if
    intensity ≥ 50, medium if ≥ 20, light if ≥ 5, and none otherwise. -/
theorem slot_intensity_truncation_and_label (n : ℕ) (max_energy : ℕ → ℚ)
    (num_impacts : ℕ → ℕ) :
    ∀ slot ∈ (analyze_full_audio n max_energy num_impacts).timeline,
      slot.intensity = min 100 (pyTrunc (max_energy slot.second * 500))
      ∧ slot.strength = (if 50 ≤ slot.intensity then "strong"
          else if 20 ≤ slot.intensity then "medium"
          else if 5 ≤ slot.intensity then "light" else "none") := by
  intro slot hmem
  rw [analyze_timeline_eq] at hmem
  rcases List.mem_map.mp hmem with ⟨sec, _, rfl⟩
  refine ⟨rfl, ?_⟩
  simp only [mkSlot]
  split_ifs <;> rfl

/-- C4 witness: the 1-second file whose per-second max RMS is 0.0099:
    0.0099·500 = 4.95 truncates to 4, which is labelled "none". -/
theorem slot_intensity_truncation_and_label_witness :
    (mkSlot (fun _ => (99/10000 : ℚ)) (fun _ => 0) 0).strength = "none" := by
  have hmem : mkSlot (fun _ => (99/10000 : ℚ)) (fun _ => 0) 0
      ∈ (analyze_full_audio 22050 (fun _ => (99/10000 : ℚ))
        (fun _ => 0)).timeline := by
    rw [analyze_timeline_eq]
    norm_num [SR, List.range_succ]
  have h := slot_intensity_truncation_and_label 22050
    (fun _ => (99/10000 : ℚ)) (fun _ => 0) _ hmem
  have hi : (mkSlot (fun _ => (99/10000 : ℚ)) (fun _ => 0) 0).intensity = 4 := by
    norm_num [mkSlot, pyTrunc]
  rw [h.2, hi]
  norm_num

/-- C4 counterexample: with max RMS 0.0099 the code stores intensity
    4 = int(4.95) and label "none", whereas the claimed formula
    min(100, round(4.95)) gives 5 (which would be labelled "light"). -/
theorem slot_intensity_rounding_counterexample :
    (analyze_full_audio 22050 (fun _ => (99/10000 : ℚ)) (fun _ => 0)).timeline.map
        (fun s => s.intensity) = [4]
    ∧ (analyze_full_audio 22050 (fun _ => (99/10000 : ℚ)) (fun _ => 0)).timeline.map
        (fun s => s.strength) = ["none"]
    ∧ min 100 (pyRound ((99/10000 : ℚ) * 500)) = 5 := by
  refine ⟨?_, ?_, ?_⟩ <;>
    norm_num [analyze_full_audio, mkSlot, pyTrunc, pyRound, Int.fract, SR,
      List.range_succ, List.takeWhile_cons]

/- Helper lemmas on classify_with_timeline. -/

lemma classify_timeline_eq (n : ℕ) (cs : ℕ → List ℚ) (yc : List String)
    (θ : ℚ) (ts : Option (List String)) :
    (classify_with_timeline n cs yc θ ts).timeline
      = (emittedEvents n cs yc θ ts).mergeSort sortKeyLE := rfl

lemma sortKeyLE_trans : ∀ a b c : SoundLabelEvent,
    sortKeyLE a b = true → sortKeyLE b c = true → sortKeyLE a c = true := by
  intro a b c hab hbc
  simp only [sortKeyLE, decide_eq_true_eq] at hab hbc ⊢
  rcases hab with h1 | ⟨h1, h1'⟩ <;> rcases hbc with h2 | ⟨h2, h2'⟩
  · exact Or.inl (lt_trans h1 h2)
  · exact Or.inl (h2 ▸ h1)
  · exact Or.inl (h1 ▸ h2)
  · exact Or.inr ⟨h1.trans h2, le_trans h2' h1'⟩

lemma sortKeyLE_total : ∀ a b : SoundLabelEvent,
    (sortKeyLE a b || sortKeyLE b a) = true := by
  intro a b
  simp only [sortKeyLE, Bool.or_eq_true, decide_eq_true_eq]
  rcases lt_trichotomy a.time_start b.time_start with h | h | h
  · exact Or.inl (Or.inl h)
  · rcases le_total b.confidence a.confidence with hc | hc
    · exact Or.inl (Or.inr ⟨h, hc⟩)
    · exact Or.inr (Or.inr ⟨h.symm, hc⟩)
  · exact Or.inr (Or.inl h)

/-- C8: every window evaluated by the sliding-window classifier starts at a
    multiple of the 0.5-second hop (8000 samples at 16 kHz) and lies
    entirely within the waveform (start + 15600 ≤ n), so a trailing partial
    window is never processed; and a waveform shorter than one window
    (n < 15600) yields an empty timeline, not an error. -/
theorem sliding_windows_within_waveform (n : ℕ) (chunk_scores : ℕ → List ℚ)
    (yamnet_classes : List String) (threshold : ℚ)
    (target_sounds : Option (List String)) :
    (∀ s ∈ windowStarts n, HOP_SAMPLES ∣ s ∧ s + EXPECTED_SAMPLES ≤ n)
    ∧ (n < EXPECTED_SAMPLES →
        (classify_with_timeline n chunk_scores yamnet_classes threshold
          target_sounds).timeline = []) := by
  constructor
  · intro s hs
    rcases List.mem_map.mp hs with ⟨i, hi, rfl⟩
    rw [List.mem_range] at hi
    refine ⟨dvd_mul_left HOP_SAMPLES i, ?_⟩
    simp only [EXPECTED_SAMPLES, HOP_SAMPLES] at hi ⊢
    omega
  · intro hn
    have hws : windowStarts n = [] := by
      unfold windowStarts
      have hz : (n + 1 - EXPECTED_SAMPLES + (HOP_SAMPLES - 1)) / HOP_SAMPLES
          = 0 := by
        simp only [EXPECTED_SAMPLES, HOP_SAMPLES] at hn ⊢
        omega
      rw [hz]
      rfl
    rw [classify_timeline_eq]
    unfold emittedEvents
    rw [hws]
    exact List.mergeSort_nil

/-- C8 witness: for a 23600-sample waveform, window start 8000 is a hop
    multiple fitting inside the buffer; a 100-sample waveform gives an
    empty timeline. -/
theorem sliding_windows_within_waveform_witness :
    (HOP_SAMPLES ∣ 8000 ∧ 8000 + EXPECTED_SAMPLES ≤ 23600)
    ∧ (classify_with_timeline 100 (fun _ => []) [] 0 none).timeline = [] := by
  constructor
  · exact (sliding_windows_within_waveform 23600 (fun _ => []) [] 0 none).1
      8000 (by decide)
  · exact (sliding_windows_within_waveform 100 (fun _ => []) [] 0 none).2
      (by norm_num [EXPECTED_SAMPLES])

/-- C9: the classifier timeline is pairwise ordered by time_start ascending
    with ties broken by confidence descending; it is a permutation of the
    emitted events; and the sort is stable: any subsequence of the emitted
    events that is already in order survives as a subsequence of the sorted
    timeline. -/
theorem classifier_timeline_sorted (n : ℕ) (chunk_scores : ℕ → List ℚ)
    (yamnet_classes : List String) (threshold : ℚ)
    (target_sounds : Option (List String)) :
    List.Pairwise (fun a b : SoundLabelEvent =>
        a.time_start < b.time_start ∨
          (a.time_start = b.time_start ∧ b.confidence ≤ a.confidence))
      (classify_with_timeline n chunk_scores yamnet_classes threshold
        target_sounds).timeline
    ∧ (classify_with_timeline n chunk_scores yamnet_classes threshold
        target_sounds).timeline.Perm
        (emittedEvents n chunk_scores yamnet_classes threshold target_sounds)
    ∧ (∀ c : List SoundLabelEvent,
        List.Pairwise (fun a b => sortKeyLE a b = true) c →
        c.Sublist (emittedEvents n chunk_scores yamnet_classes threshold
          target_sounds) →
        c.Sublist (classify_with_timeline n chunk_scores yamnet_classes
          threshold target_sounds).timeline) := by
  rw [classify_timeline_eq]
  refine ⟨?_, List.mergeSort_perm _ _, ?_⟩
  · have hs := List.sorted_mergeSort sortKeyLE_trans sortKeyLE_total
      (emittedEvents n chunk_scores yamnet_classes threshold target_sounds)
    exact hs.imp (fun h => by
      simpa only [sortKeyLE, decide_eq_true_eq] using h)
  · intro c hc hsub
    exact List.sublist_mergeSort sortKeyLE_trans sortKeyLE_total hc hsub

/-- C9 witness: the theorem at a concrete one-window input; the stability
    clause applied to the empty ordered subsequence. -/
theorem classifier_timeline_sorted_witness :
    List.Sublist []
      (classify_with_timeline 16000 (fun _ => [1/2]) ["A"] (1/10)
        none).timeline :=
  (classifier_timeline_sorted 16000 (fun _ => [1/2]) ["A"] (1/10) none).2.2
    [] List.Pairwise.nil (List.nil_sublist _)

/- Helper lemmas on the (spec-modelled) onset detector. -/

lemma frameTimeMs_strict_mono {p q : ℕ} (h : p < q) :
    frameTimeMs p < frameTimeMs q := by
  simp only [frameTimeMs]
  have hq : (p : ℚ) < q := by exact_mod_cast h
  linarith

lemma gapOk_shift {g : ℚ} {p q x : ℕ} (hpq : p < q)
    (h : gapOk g q x = true) : gapOk g p x = true := by
  simp only [gapOk, decide_eq_true_eq] at h ⊢
  have := frameTimeMs_strict_mono hpq
  linarith

lemma pickPeaks_sublist (g : ℚ) : ∀ (l : List (ℕ × ℚ)) (b : Option ℕ),
    (pickPeaks g b l).Sublist l := by
  intro l
  induction l with
  | nil => intro b; cases b <;> simp [pickPeaks]
  | cons p rest ih =>
    intro b
    cases b with
    | none => exact (ih (some p.1)).cons₂ p
    | some last =>
      by_cases hok : gapOk g last p.1 = true
      · rw [show pickPeaks g (some last) (p :: rest)
            = p :: pickPeaks g (some p.1) rest from by simp [pickPeaks, hok]]
        exact (ih (some p.1)).cons₂ p
      · rw [show pickPeaks g (some last) (p :: rest)
            = pickPeaks g (some last) rest from by simp [pickPeaks, hok]]
        exact (ih (some last)).cons p

lemma pickPeaks_chain' (g : ℚ) : ∀ (l : List (ℕ × ℚ)) (b : Option ℕ),
    (pickPeaks g b l).Chain' (fun p q => gapOk g p.1 q.1 = true)
    ∧ ∀ last, b = some last →
        ∀ q ∈ (pickPeaks g b l).head?, gapOk g last q.1 = true := by
  intro l
  induction l with
  | nil =>
    intro b
    refine ⟨by simp [pickPeaks], ?_⟩
    intro last _ q hq
    simp [pickPeaks] at hq
  | cons p rest ih =>
    intro b
    cases b with
    | none =>
      obtain ⟨hch, hhd⟩ := ih (some p.1)
      refine ⟨?_, ?_⟩
      · show List.Chain' _ (p :: pickPeaks g (some p.1) rest)
        rw [List.chain'_cons']
        exact ⟨fun q hq => hhd p.1 rfl q hq, hch⟩
      · intro last hl
        simp at hl
    | some last0 =>
      by_cases hok : gapOk g last0 p.1 = true
      · obtain ⟨hch, hhd⟩ := ih (some p.1)
        rw [show pickPeaks g (some last0) (p :: rest)
            = p :: pickPeaks g (some p.1) rest from by simp [pickPeaks, hok]]
        refine ⟨?_, ?_⟩
        · rw [List.chain'_cons']
          exact ⟨fun q hq => hhd p.1 rfl q hq, hch⟩
        · intro last hl q hq
          injection hl with hl
          subst hl
          simp only [List.head?_cons, Option.mem_def, Option.some.injEq] at hq
          subst hq
          exact hok
      · rw [show pickPeaks g (some last0) (p :: rest)
            = pickPeaks g (some last0) rest from by simp [pickPeaks, hok]]
        exact ih (some last0)

lemma pickPeaks_maximal (g : ℚ) : ∀ (l m : List (ℕ × ℚ)) (b : Option ℕ),
    l.Pairwise (fun p q => p.1 < q.1) → m.Sublist l →
    m.Chain' (fun p q => gapOk g p.1 q.1 = true) →
    (∀ last, b = some last → ∀ q ∈ m.head?, gapOk g last q.1 = true) →
    m.length ≤ (pickPeaks g b l).length := by
  intro l
  induction l with
  | nil =>
    intro m b _ hsub _ _
    rw [List.sublist_nil.mp hsub]
    exact Nat.zero_le _
  | cons p rest ih =>
    intro m b hpw hsub hchain hhead
    obtain ⟨hplt, hpw'⟩ := List.pairwise_cons.mp hpw
    cases hsub with
    | cons _ hsub' =>
      cases m with
      | nil => exact Nat.zero_le _
      | cons q m' =>
        have hq_rest : q ∈ rest := hsub'.subset (List.mem_cons_self q m')
        have hpq : p.1 < q.1 := hplt q hq_rest
        have hm' : m'.Sublist rest :=
          (List.sublist_cons_self q m').trans hsub'
        have hchain' := (List.chain'_cons'.mp hchain).2
        have hhead' : ∀ last, some p.1 = some last →
            ∀ r ∈ m'.head?, gapOk g last r.1 = true := by
          intro last hlast r hr
          injection hlast with hlast
          subst hlast
          exact gapOk_shift hpq ((List.chain'_cons'.mp hchain).1 r hr)
        have hbound := ih m' (some p.1) hpw' hm' hchain' hhead'
        cases b with
        | none =>
          show (q :: m').length ≤ (p :: pickPeaks g (some p.1) rest).length
          simpa using Nat.succ_le_succ hbound
        | some last =>
          by_cases hok : gapOk g last p.1 = true
          · rw [show pickPeaks g (some last) (p :: rest)
                = p :: pickPeaks g (some p.1) rest from by simp [pickPeaks, hok]]
            simpa using Nat.succ_le_succ hbound
          · rw [show pickPeaks g (some last) (p :: rest)
                = pickPeaks g (some last) rest from by simp [pickPeaks, hok]]
            exact ih (q :: m') (some last) hpw' hsub' hchain hhead
    | cons₂ _ hsub' =>
      rename_i m₀
      have hchain₀ := (List.chain'_cons'.mp hchain).2
      have hhead₀ : ∀ last, some p.1 = some last →
          ∀ r ∈ m₀.head?, gapOk g last r.1 = true := by
        intro last hl r hr
        injection hl with hl
        subst hl
        exact (List.chain'_cons'.mp hchain).1 r hr
      have hbound := ih m₀ (some p.1) hpw' hsub' hchain₀ hhead₀
      cases b with
      | none =>
        show (p :: m₀).length ≤ (p :: pickPeaks g (some p.1) rest).length
        simpa using Nat.succ_le_succ hbound
      | some last =>
        have hok : gapOk g last p.1 = true := hhead last rfl p (by simp)
        rw [show pickPeaks g (some last) (p :: rest)
            = p :: pickPeaks g (some p.1) rest from by simp [pickPeaks, hok]]
        simpa using Nat.succ_le_succ hbound

lemma enumFrom_pairwise_fst_lt {α : Type} : ∀ (s : ℕ) (l : List α),
    (List.enumFrom s l).Pairwise (fun p q => p.1 < q.1) := by
  intro s l
  induction l generalizing s with
  | nil => simp
  | cons a tl ih =>
    rw [show List.enumFrom s (a :: tl)
        = (s, a) :: List.enumFrom (s + 1) tl from rfl, List.pairwise_cons]
    refine ⟨?_, ih (s + 1)⟩
    rintro ⟨i, x⟩ hq
    have h := (List.mem_enumFrom hq).1
    simpa using by omega

lemma detectOnsets_pairwise_fst_lt (onset_env : List ℚ) (s g : ℚ) :
    (detectOnsets onset_env s g).Pairwise (fun p q => p.1 < q.1) := by
  have henum : (onset_env.enum).Pairwise (fun p q : ℕ × ℚ => p.1 < q.1) :=
    enumFrom_pairwise_fst_lt 0 onset_env
  have hfilt : (onset_env.enum.filter
      (fun r => decide (effectiveThreshold s ≤ r.2))).Pairwise
        (fun p q : ℕ × ℚ => p.1 < q.1) :=
    List.Pairwise.sublist (List.filter_sublist _) henum
  exact List.Pairwise.sublist (pickPeaks_sublist g _ none) hfilt

lemma mem_detectOnsets_strength (onset_env : List ℚ) (s g : ℚ) :
    ∀ p ∈ detectOnsets onset_env s g, effectiveThreshold s ≤ p.2 := by
  intro p hp
  have hmem : p ∈ onset_env.enum.filter
      (fun r => decide (effectiveThreshold s ≤ r.2)) :=
    (pickPeaks_sublist g _ none).subset hp
  exact of_decide_eq_true (List.mem_filter.mp hmem).2

lemma effectiveThreshold_pos (s : ℚ) : 0 < effectiveThreshold s :=
  lt_of_lt_of_le (by norm_num) (le_max_left _ _)

/-- C5 (spec-modelled detector): the accepted events of the Event Detector
    are strictly increasing in time (hence non-decreasing), and every two
    accepted events — not only consecutive ones — are at least min_gap_ms
    milliseconds apart. -/
theorem detector_times_ordered_and_gapped (onset_env : List ℚ)
    (sensitivity min_gap_ms : ℚ) (hg : 0 ≤ min_gap_ms) :
    List.Pairwise (fun p q : ℕ × ℚ =>
        p.1 < q.1 ∧ frameTimeMs p.1 + min_gap_ms ≤ frameTimeMs q.1)
      (detectOnsets onset_env sensitivity min_gap_ms) := by
  have hlt := detectOnsets_pairwise_fst_lt onset_env sensitivity min_gap_ms
  have hchain := (pickPeaks_chain' min_gap_ms
    (onset_env.enum.filter
      (fun r => decide (effectiveThreshold sensitivity ≤ r.2))) none).1
  haveI : IsTrans (ℕ × ℚ) (fun p q => gapOk min_gap_ms p.1 q.1 = true) := by
    refine ⟨fun a b c hab hbc => ?_⟩
    simp only [gapOk, decide_eq_true_eq] at hab hbc ⊢
    linarith
  rw [List.chain'_iff_pairwise] at hchain
  have hgap : (detectOnsets onset_env sensitivity min_gap_ms).Pairwise
      (fun p q => frameTimeMs p.1 + min_gap_ms ≤ frameTimeMs q.1) :=
    hchain.imp (fun h => by
      simpa only [gapOk, decide_eq_true_eq] using h)
  exact hlt.and hgap

/-- C5 witness: the theorem at a concrete envelope with two well-separated
    loud frames and gap 30 ms. -/
theorem detector_times_ordered_and_gapped_witness :
    List.Pairwise (fun p q : ℕ × ℚ =>
        p.1 < q.1 ∧ frameTimeMs p.1 + 30 ≤ frameTimeMs q.1)
      (detectOnsets [10, 0, 0, 1/5] (8/10) 30) :=
  detector_times_ordered_and_gapped [10, 0, 0, 1/5] (8/10) 30 (by norm_num)

/-- C6 (spec-modelled detector): the effective threshold max(0.05, 1 - s)
    is antitone in the sensitivity, and raising the sensitivity never
    decreases the number of accepted events on the same envelope. -/
theorem sensitivity_monotone_event_count (onset_env : List ℚ)
    (s1 s2 min_gap_ms : ℚ) (h : s1 ≤ s2) :
    effectiveThreshold s2 ≤ effectiveThreshold s1
    ∧ (detectOnsets onset_env s1 min_gap_ms).length
        ≤ (detectOnsets onset_env s2 min_gap_ms).length := by
  have hthr : effectiveThreshold s2 ≤ effectiveThreshold s1 := by
    simp only [effectiveThreshold]
    exact max_le_max le_rfl (by linarith)
  refine ⟨hthr, ?_⟩
  have hsub : (onset_env.enum.filter
        (fun r => decide (effectiveThreshold s1 ≤ r.2))).Sublist
      (onset_env.enum.filter
        (fun r => decide (effectiveThreshold s2 ≤ r.2))) := by
    refine List.monotone_filter_right _ (fun a ha => ?_)
    simp only [decide_eq_true_eq] at ha ⊢
    exact le_trans hthr ha
  have henum2 : (onset_env.enum.filter
      (fun r => decide (effectiveThreshold s2 ≤ r.2))).Pairwise
        (fun p q : ℕ × ℚ => p.1 < q.1) :=
    List.Pairwise.sublist (List.filter_sublist _)
      (enumFrom_pairwise_fst_lt 0 onset_env)
  have hm_chain := (pickPeaks_chain' min_gap_ms
    (onset_env.enum.filter
      (fun r => decide (effectiveThreshold s1 ≤ r.2))) none).1
  have hm_sub : (detectOnsets onset_env s1 min_gap_ms).Sublist
      (onset_env.enum.filter
        (fun r => decide (effectiveThreshold s2 ≤ r.2))) :=
    (pickPeaks_sublist min_gap_ms _ none).trans hsub
  exact pickPeaks_maximal min_gap_ms _ _ none henum2 hm_sub hm_chain
    (fun last hl => by simp at hl)

/-- C6 witness: the theorem at a concrete envelope at sensitivities
    0.5 ≤ 0.9. -/
theorem sensitivity_monotone_event_count_witness :
    effectiveThreshold (9/10) ≤ effectiveThreshold (1/2)
    ∧ (detectOnsets [10, 0, 0, 1/5] (1/2) 30).length
        ≤ (detectOnsets [10, 0, 0, 1/5] (9/10) 30).length :=
  sensitivity_monotone_event_count [10, 0, 0, 1/5] (1/2) (9/10) 30
    (by norm_num)

/- Helper lemmas on listMax / normalizeOnsets. -/

lemma le_listMax : ∀ (l : List ℚ), ∀ x ∈ l, x ≤ listMax l := by
  intro l
  induction l with
  | nil => simp
  | cons a tl ih =>
    intro x hx
    cases tl with
    | nil =>
      rw [List.mem_singleton] at hx
      subst hx
      exact le_of_eq rfl
    | cons b tl' =>
      rcases List.mem_cons.mp hx with rfl | hx'
      · exact le_max_left _ _
      · exact le_trans (ih x hx') (le_max_right _ _)

lemma listMax_mem : ∀ (l : List ℚ), l ≠ [] → listMax l ∈ l := by
  intro l
  induction l with
  | nil => intro h; exact absurd rfl h
  | cons a tl ih =>
    intro _
    cases tl with
    | nil => exact List.mem_singleton.mpr rfl
    | cons b tl' =>
      rcases le_total a (listMax (b :: tl')) with h | h
      · rw [show listMax (a :: b :: tl') = max a (listMax (b :: tl')) from rfl,
          max_eq_right h]
        exact List.mem_cons_of_mem a (ih (by simp))
      · rw [show listMax (a :: b :: tl') = max a (listMax (b :: tl')) from rfl,
          max_eq_left h]
        exact List.mem_cons_self a _

lemma detectOnsets_listMax_pos (onset_env : List ℚ)
    (sensitivity min_gap_ms : ℚ)
    (hne : detectOnsets onset_env sensitivity min_gap_ms ≠ []) :
    0 < listMax ((detectOnsets onset_env sensitivity min_gap_ms).map
      Prod.snd) := by
  have hmax_mem : listMax ((detectOnsets onset_env sensitivity
      min_gap_ms).map Prod.snd) ∈ (detectOnsets onset_env sensitivity
        min_gap_ms).map Prod.snd :=
    listMax_mem _ (by simpa [List.map_eq_nil_iff] using hne)
  rcases List.mem_map.mp hmax_mem with ⟨p, hp, hmax_eq⟩
  have hthr := mem_detectOnsets_strength onset_env sensitivity min_gap_ms
    p hp
  exact lt_of_lt_of_le (effectiveThreshold_pos sensitivity)
    (hmax_eq ▸ hthr)

lemma normalizeOnsets_bounds (onset_env : List ℚ)
    (sensitivity min_gap_ms : ℚ) :
    ∀ q ∈ normalizeOnsets (detectOnsets onset_env sensitivity min_gap_ms),
      0 ≤ q.2 ∧ q.2 ≤ 1 := by
  intro q hq
  by_cases hne : detectOnsets onset_env sensitivity min_gap_ms = []
  · rw [normalizeOnsets, if_pos (by simp [hne])] at hq
    exact absurd hq (List.not_mem_nil q)
  · have hmaxpos := detectOnsets_listMax_pos onset_env sensitivity
      min_gap_ms hne
    rw [normalizeOnsets,
      if_neg (by simpa [List.isEmpty_eq_false] using hne)] at hq
    rcases List.mem_map.mp hq with ⟨r, hr, rfl⟩
    have hr2 := mem_detectOnsets_strength onset_env sensitivity min_gap_ms
      r hr
    constructor
    · exact div_nonneg
        (le_trans (le_of_lt (effectiveThreshold_pos sensitivity)) hr2)
        (le_of_lt hmaxpos)
    · rw [div_le_one hmaxpos]
      exact le_listMax _ _ (List.mem_map_of_mem Prod.snd hr)

/-- C7 (spec-modelled detector; the normalization itself is src lines
    109-112): if no peaks pass the threshold the normalized list is empty;
    otherwise the maximum retained strength is strictly positive — the
    divisor is never zero — and every normalized strength lies in [0,1]. -/
theorem strength_normalization_safe (onset_env : List ℚ)
    (sensitivity min_gap_ms : ℚ) :
    (detectOnsets onset_env sensitivity min_gap_ms = [] →
      normalizeOnsets (detectOnsets onset_env sensitivity min_gap_ms) = [])
    ∧ (detectOnsets onset_env sensitivity min_gap_ms ≠ [] →
        0 < listMax ((detectOnsets onset_env sensitivity min_gap_ms).map
          Prod.snd)
        ∧ ∀ q ∈ normalizeOnsets (detectOnsets onset_env sensitivity
            min_gap_ms), 0 ≤ q.2 ∧ q.2 ≤ 1) := by
  constructor
  · intro h
    simp [normalizeOnsets, h]
  · intro hne
    exact ⟨detectOnsets_listMax_pos onset_env sensitivity min_gap_ms hne,
      normalizeOnsets_bounds onset_env sensitivity min_gap_ms⟩

/-- C7 witness: on the envelope [1] at sensitivity 0.8 one peak is
    retained, its strength maximum is positive and the normalized
    strengths lie in [0,1]. -/
theorem strength_normalization_safe_witness :
    0 < listMax ((detectOnsets [1] (8/10) 30).map Prod.snd)
    ∧ ∀ q ∈ normalizeOnsets (detectOnsets [1] (8/10) 30),
        0 ≤ q.2 ∧ q.2 ≤ 1 := by
  have hne : detectOnsets [1] (8/10) 30 ≠ [] := by
    have : detectOnsets [1] (8/10) 30 = [(0, 1)] := by
      norm_num [detectOnsets, onsetDetect, effectiveThreshold, pickPeaks,
        List.enum, List.enumFrom, List.filter_cons, max_def]
    rw [this]
    simp
  exact (strength_normalization_safe [1] (8/10) 30).2 hne

/- Helper lemmas bounding pyRound / pyTrunc. -/

lemma pyRound_nonneg {x : ℚ} (h : 0 ≤ x) : 0 ≤ pyRound x := by
  unfold pyRound
  have h0 : (0 : ℤ) ≤ ⌊x⌋ := Int.floor_nonneg.mpr h
  split_ifs <;> omega

lemma pyRound_le_add_half (x : ℚ) : (pyRound x : ℚ) ≤ x + 1/2 := by
  unfold pyRound
  have hfl := Int.floor_le x
  split_ifs with h1 h2 h3
  · linarith
  · have hf : (1 : ℚ)/2 < x - ⌊x⌋ := by
      unfold Int.fract at h2
      exact h2
    push_cast
    linarith
  · linarith
  · have h12 : Int.fract x = 1/2 := le_antisymm (not_lt.mp h2) (not_lt.mp h1)
    have hf : x - ⌊x⌋ = 1/2 := by
      unfold Int.fract at h12
      exact h12
    push_cast
    linarith

lemma pyRound_le_of_le {x : ℚ} {B : ℤ} (h : x ≤ B) : pyRound x ≤ B := by
  unfold pyRound
  have hfl : ⌊x⌋ ≤ B := by
    have := Int.floor_mono h
    simpa using this
  have hsucc : Int.fract x ≠ 0 → ⌊x⌋ + 1 ≤ B := by
    intro hne
    rcases lt_or_eq_of_le hfl with hlt | heq
    · omega
    · exfalso
      apply hne
      have hx : x = (B : ℚ) := le_antisymm h (by
        calc (B : ℚ) = (⌊x⌋ : ℚ) := by exact_mod_cast heq.symm
        _ ≤ x := Int.floor_le x)
      rw [hx]
      exact Int.fract_intCast B
  split_ifs with h1 h2 h3
  · exact hfl
  · exact hsucc (ne_of_gt (lt_trans (by norm_num) h2))
  · exact hfl
  · exact hsucc (ne_of_gt (lt_of_lt_of_le (by norm_num) (not_lt.mp h1)))

lemma int_le_pyRound {x : ℚ} {B : ℤ} (h : (B : ℚ) ≤ x) : B ≤ pyRound x := by
  unfold pyRound
  have hfl : B ≤ ⌊x⌋ := Int.le_floor.mpr h
  split_ifs <;> omega

lemma pyTrunc_of_nonneg {x : ℚ} (h : 0 ≤ x) : pyTrunc x = ⌊x⌋ := by
  unfold pyTrunc
  exact if_pos h

lemma pyTrunc_nonneg {x : ℚ} (h : 0 ≤ x) : 0 ≤ pyTrunc x := by
  rw [pyTrunc_of_nonneg h]
  exact Int.floor_nonneg.mpr h

lemma pyTrunc_le_of_le {x : ℚ} {B : ℤ} (h0 : 0 ≤ x) (h : x ≤ B) :
    pyTrunc x ≤ B := by
  rw [pyTrunc_of_nonneg h0]
  have := Int.floor_mono h
  simpa using this

lemma int_le_pyTrunc {x : ℚ} {B : ℤ} (h0 : 0 ≤ x) (h : (B : ℚ) ≤ x) :
    B ≤ pyTrunc x := by
  rw [pyTrunc_of_nonneg h0]
  exact Int.le_floor.mpr h

/- Shared concrete evaluation: a 2000-sample file whose envelope has one
   loud frame, with zero centroid/RMS black boxes, at the source defaults
   sensitivity 0.8, min_gap 30. -/

lemma detect_events_eval_simple :
    (detect_precise_events 2000 [10] (fun _ => 0) (fun _ => 0)
        (8/10) 30).events
      = [HapticEvent.mk 0 0 (3/5) 60 "heavy" 38] := by
  norm_num [detect_precise_events, detectOnsets, onsetDetect,
    effectiveThreshold, pickPeaks, normalizeOnsets, listMax, mkPreciseEvent,
    pyTrunc, pyRound, round1, round3, Int.fract, List.enum, List.enumFrom,
    List.filter_cons, List.filterMap_cons, max_def]

/-- C2 (amended): neither pipeline validates its parameters — there is no
    ParameterError and no rejection before processing.  In
    detect_precise_events an out-of-range sensitivity is processed
    normally; its effect is clamped by the threshold floor: every
    sensitivity ≥ 0.95 (hence every sensitivity > 1) produces exactly the
    events of sensitivity 0.95, since threshold = max(0.05, 1−s) = 0.05
    there. -/
theorem no_parameter_rejection (n : ℕ) (onset_env : List ℚ)
    (centroid_mean rms_mean : ℤ → ℚ) (sensitivity min_gap_ms : ℚ)
    (h : (19/20 : ℚ) ≤ sensitivity) :
    (detect_precise_events n onset_env centroid_mean rms_mean sensitivity
        min_gap_ms).events
      = (detect_precise_events n onset_env centroid_mean rms_mean (19/20)
        min_gap_ms).events := by
  have hthr : effectiveThreshold sensitivity = effectiveThreshold (19/20) := by
    simp only [effectiveThreshold]
    rw [max_eq_left (by norm_num : (1 : ℚ) - 19/20 ≤ 0.05),
      max_eq_left (by
        have h5 : (0.05 : ℚ) = 1/20 := by norm_num
        rw [h5]
        linarith)]
  show (normalizeOnsets (onsetDetect onset_env
      (effectiveThreshold sensitivity) min_gap_ms)).filterMap
        (mkPreciseEvent n centroid_mean rms_mean)
    = (normalizeOnsets (onsetDetect onset_env
      (effectiveThreshold (19/20)) min_gap_ms)).filterMap
        (mkPreciseEvent n centroid_mean rms_mean)
  rw [hthr]

/-- C2 witness: the theorem at the out-of-range sensitivity 1.5. -/
theorem no_parameter_rejection_witness :
    (detect_precise_events 2000 [10] (fun _ => 0) (fun _ => 0)
        (3/2) 30).events
      = (detect_precise_events 2000 [10] (fun _ => 0) (fun _ => 0)
        (19/20) 30).events :=
  no_parameter_rejection 2000 [10] (fun _ => 0) (fun _ => 0) (3/2) 30
    (by norm_num)

/-- C2 counterexample: with sensitivity 1.5 ∉ [0,1] the run is not
    rejected — it completes and produces a timeline containing one
    event. -/
theorem no_parameter_rejection_counterexample :
    (detect_precise_events 2000 [10] (fun _ => 0) (fun _ => 0)
        (3/2) 30).total_events = 1 := by
  show ((normalizeOnsets (detectOnsets [10] (3/2) 30)).filterMap
    (mkPreciseEvent 2000 (fun _ => 0) (fun _ => 0))).length = 1
  norm_num [detectOnsets, onsetDetect, effectiveThreshold, pickPeaks,
    normalizeOnsets, listMax, mkPreciseEvent, pyTrunc, List.enum,
    List.enumFrom, List.filter_cons, List.filterMap_cons, max_def]

/-- C3 (amended): every emitted precise-mode event's stored intensity is
    round(min(1.0, strength·0.6 + loudness·0.4), 3) for its normalized
    strength and its loudness min(1.0, mean_rms·15) — an upper clamp with
    the (0.6, 0.4) weighting profile; there is no lower clamp at 0.1 (the
    counterexample exhibits an emitted intensity of 0.012). -/
theorem event_intensity_formula (n : ℕ) (onset_env : List ℚ)
    (centroid_mean rms_mean : ℤ → ℚ) (sensitivity min_gap_ms : ℚ) :
    ∀ e ∈ (detect_precise_events n onset_env centroid_mean rms_mean
        sensitivity min_gap_ms).events,
      ∃ p ∈ normalizeOnsets (detectOnsets onset_env sensitivity min_gap_ms),
        e.intensity = round3 (min 1 (p.2 * 0.6
          + min 1 (rms_mean (pyTrunc ((p.1 : ℚ) * 256 / 22050 * 22050)) * 15)
            * 0.4)) := by
  intro e he
  rcases List.mem_filterMap.mp he with ⟨p, hp, hmk⟩
  refine ⟨p, hp, ?_⟩
  simp only [mkPreciseEvent] at hmk
  split at hmk
  · rw [Option.some.injEq] at hmk
    subst hmk
    rfl
  · exact absurd hmk (by simp)

/-- C3 witness: at the shared concrete input the single event's intensity
    is round3(min(1, 1·0.6 + min(1, 0·15)·0.4)) = 0.6. -/
theorem event_intensity_formula_witness :
    ∃ p ∈ normalizeOnsets (detectOnsets [10] (8/10) 30),
      (HapticEvent.mk 0 0 (3/5) 60 "heavy" 38).intensity
        = round3 (min 1 (p.2 * 0.6 + min 1 ((0 : ℚ) * 15) * 0.4)) := by
  have h := event_intensity_formula 2000 [10] (fun _ => 0) (fun _ => 0)
    (8/10) 30 (HapticEvent.mk 0 0 (3/5) 60 "heavy" 38)
    (by rw [detect_events_eval_simple]; exact List.mem_singleton.mpr rfl)
  exact h

/-- C3 counterexample: an envelope with a dominant peak and a faint second
    peak: the faint event's stored intensity is 0.012 < 0.1, so intensities
    are not clamped below at 0.1. -/
theorem event_intensity_no_lower_clamp_counterexample :
    (detect_precise_events 2000 [10, 0, 0, 1/5] (fun _ => 0) (fun _ => 0)
        (8/10) 30).events.map (fun e => e.intensity) = [3/5, 3/250]
    ∧ (3/250 : ℚ) < 1/10 := by
  constructor
  · norm_num [detect_precise_events, detectOnsets, onsetDetect,
      effectiveThreshold, pickPeaks, gapOk, frameTimeMs, normalizeOnsets,
      listMax, mkPreciseEvent, pyTrunc, pyRound, round1, round3, Int.fract,
      List.enum, List.enumFrom, List.filter_cons, List.filterMap_cons,
      max_def]
  · norm_num

/-- C10 (amended): every precise-mode event has time ≥ 0; its stored
    time_sec is the true onset time (which is < duration, enforced by the
    end_sample > start_sample guard) rounded to 3 decimals, hence
    < duration + 0.0005 but not always < duration (see the
    counterexample); its stored intensity lies in [0,1];
    intensity_percent in [0,100]; and duration_ms = int(20 + intensity·30)
    in [20,50].  Requires only that the black-box mean RMS is nonnegative
    (an RMS is a root of a mean square). -/
theorem event_ranges (n : ℕ) (onset_env : List ℚ)
    (centroid_mean rms_mean : ℤ → ℚ) (sensitivity min_gap_ms : ℚ)
    (hrms : ∀ k, 0 ≤ rms_mean k) :
    ∀ e ∈ (detect_precise_events n onset_env centroid_mean rms_mean
        sensitivity min_gap_ms).events,
      0 ≤ e.time_sec
      ∧ e.time_sec < (n : ℚ) / 22050 + 1/2000
      ∧ 0 ≤ e.intensity ∧ e.intensity ≤ 1
      ∧ 0 ≤ e.intensity_percent ∧ e.intensity_percent ≤ 100
      ∧ 20 ≤ e.duration_ms ∧ e.duration_ms ≤ 50 := by
  intro e he
  rcases List.mem_filterMap.mp he with ⟨p, hp, hmk⟩
  obtain ⟨hs0, hs1⟩ := normalizeOnsets_bounds onset_env sensitivity
    min_gap_ms p hp
  simp only [mkPreciseEvent] at hmk
  split at hmk
  case isTrue hcond =>
    rw [Option.some.injEq] at hmk
    subst hmk
    have htnn : 0 ≤ (p.1 : ℚ) * 256 / 22050 := by positivity
    have hstart_eq : pyTrunc ((p.1 : ℚ) * 256 / 22050 * 22050)
        = (p.1 : ℤ) * 256 := by
      have harg : (p.1 : ℚ) * 256 / 22050 * 22050
          = (((p.1 : ℤ) * 256 : ℤ) : ℚ) := by
        push_cast
        field_simp
      rw [harg, pyTrunc_of_nonneg (by positivity), Int.floor_intCast]
    rw [hstart_eq] at hcond
    have hlt_n : (p.1 : ℤ) * 256 < (n : ℤ) :=
      lt_of_lt_of_le hcond (min_le_right _ _)
    have htlt : (p.1 : ℚ) * 256 / 22050 < (n : ℚ) / 22050 := by
      rw [div_lt_div_iff_of_pos_right (by norm_num : (0:ℚ) < 22050)]
      exact_mod_cast hlt_n
    have hL0 : 0 ≤ min 1 (rms_mean (pyTrunc ((p.1 : ℚ) * 256 / 22050
        * 22050)) * 15) :=
      le_min (by norm_num) (mul_nonneg (hrms _) (by norm_num))
    have hL1 : min 1 (rms_mean (pyTrunc ((p.1 : ℚ) * 256 / 22050
        * 22050)) * 15) ≤ 1 := min_le_left _ _
    have hI0 : 0 ≤ min 1 (p.2 * 0.6 + min 1 (rms_mean (pyTrunc
        ((p.1 : ℚ) * 256 / 22050 * 22050)) * 15) * 0.4) :=
      le_min (by norm_num) (add_nonneg (mul_nonneg hs0 (by norm_num))
        (mul_nonneg hL0 (by norm_num)))
    have hI1 : min 1 (p.2 * 0.6 + min 1 (rms_mean (pyTrunc
        ((p.1 : ℚ) * 256 / 22050 * 22050)) * 15) * 0.4) ≤ 1 :=
      min_le_left _ _
    refine ⟨?_, ?_, ?_, ?_, ?_, ?_, ?_, ?_⟩
    · show 0 ≤ round3 ((p.1 : ℚ) * 256 / 22050)
      rw [round3]
      have h0 : (0 : ℤ) ≤ pyRound ((p.1 : ℚ) * 256 / 22050 * 1000) :=
        pyRound_nonneg (by positivity)
      have h0q : (0 : ℚ) ≤ (pyRound ((p.1 : ℚ) * 256 / 22050 * 1000) : ℚ) :=
        by exact_mod_cast h0
      linarith
    · show round3 ((p.1 : ℚ) * 256 / 22050) < (n : ℚ) / 22050 + 1/2000
      rw [round3]
      have hhalf := pyRound_le_add_half ((p.1 : ℚ) * 256 / 22050 * 1000)
      linarith
    · show 0 ≤ round3 (min 1 (p.2 * 0.6 + min 1 (rms_mean (pyTrunc
        ((p.1 : ℚ) * 256 / 22050 * 22050)) * 15) * 0.4))
      rw [round3]
      have h0 : (0 : ℤ) ≤ pyRound (min 1 (p.2 * 0.6 + min 1 (rms_mean
          (pyTrunc ((p.1 : ℚ) * 256 / 22050 * 22050)) * 15) * 0.4) * 1000) :=
        pyRound_nonneg (by
          apply mul_nonneg hI0
          norm_num)
      have h0q : (0 : ℚ) ≤ (pyRound (min 1 (p.2 * 0.6 + min 1 (rms_mean
          (pyTrunc ((p.1 : ℚ) * 256 / 22050 * 22050)) * 15) * 0.4)
            * 1000) : ℚ) := by exact_mod_cast h0
      linarith
    · show round3 (min 1 (p.2 * 0.6 + min 1 (rms_mean (pyTrunc
        ((p.1 : ℚ) * 256 / 22050 * 22050)) * 15) * 0.4)) ≤ 1
      rw [round3]
      have hub : pyRound (min 1 (p.2 * 0.6 + min 1 (rms_mean (pyTrunc
          ((p.1 : ℚ) * 256 / 22050 * 22050)) * 15) * 0.4) * 1000)
            ≤ (1000 : ℤ) :=
        pyRound_le_of_le (by push_cast; linarith)
      have hubq : (pyRound (min 1 (p.2 * 0.6 + min 1 (rms_mean (pyTrunc
          ((p.1 : ℚ) * 256 / 22050 * 22050)) * 15) * 0.4) * 1000) : ℚ)
            ≤ 1000 := by exact_mod_cast hub
      linarith
    · show (0 : ℤ) ≤ pyTrunc (min 1 (p.2 * 0.6 + min 1 (rms_mean (pyTrunc
        ((p.1 : ℚ) * 256 / 22050 * 22050)) * 15) * 0.4) * 100)
      exact pyTrunc_nonneg (mul_nonneg hI0 (by norm_num))
    · show pyTrunc (min 1 (p.2 * 0.6 + min 1 (rms_mean (pyTrunc
        ((p.1 : ℚ) * 256 / 22050 * 22050)) * 15) * 0.4) * 100) ≤ (100 : ℤ)
      exact pyTrunc_le_of_le (mul_nonneg hI0 (by norm_num))
        (by push_cast; linarith)
    · show (20 : ℤ) ≤ pyTrunc (20 + min 1 (p.2 * 0.6 + min 1 (rms_mean
        (pyTrunc ((p.1 : ℚ) * 256 / 22050 * 22050)) * 15) * 0.4) * 30)
      exact int_le_pyTrunc (by linarith) (by push_cast; linarith)
    · show pyTrunc (20 + min 1 (p.2 * 0.6 + min 1 (rms_mean (pyTrunc
        ((p.1 : ℚ) * 256 / 22050 * 22050)) * 15) * 0.4) * 30) ≤ (50 : ℤ)
      exact pyTrunc_le_of_le (by linarith) (by push_cast; linarith)
  case isFalse =>
    exact absurd hmk (by simp)

/-- C10 witness: the theorem at the shared concrete input, giving the
    range facts for its single event. -/
theorem event_ranges_witness :
    0 ≤ (HapticEvent.mk 0 0 (3/5) 60 "heavy" 38).time_sec
    ∧ (HapticEvent.mk 0 0 (3/5) 60 "heavy" 38).time_sec
        < (2000 : ℚ) / 22050 + 1/2000
    ∧ 0 ≤ (HapticEvent.mk 0 0 (3/5) 60 "heavy" 38).intensity
    ∧ (HapticEvent.mk 0 0 (3/5) 60 "heavy" 38).intensity ≤ 1
    ∧ 0 ≤ (HapticEvent.mk 0 0 (3/5) 60 "heavy" 38).intensity_percent
    ∧ (HapticEvent.mk 0 0 (3/5) 60 "heavy" 38).intensity_percent ≤ 100
    ∧ 20 ≤ (HapticEvent.mk 0 0 (3/5) 60 "heavy" 38).duration_ms
    ∧ (HapticEvent.mk 0 0 (3/5) 60 "heavy" 38).duration_ms ≤ 50 :=
  event_ranges 2000 [10] (fun _ => 0) (fun _ => 0) (8/10) 30
    (fun _ => le_refl 0) (HapticEvent.mk 0 0 (3/5) 60 "heavy" 38)
    (by rw [detect_events_eval_simple]; exact List.mem_singleton.mpr rfl)

/-- C10 counterexample: a 257-sample file whose envelope peaks at frame 1
    (sample 256): the true onset time 256/22050 ≈ 0.01161 s is below the
    duration 257/22050 ≈ 0.011655 s, but the stored time_sec rounds to
    0.012, which exceeds the duration — so the stored time offset is not
    always < duration. -/
theorem event_time_rounding_counterexample :
    (detect_precise_events 257 [0, 1] (fun _ => 0) (fun _ => 0)
        (8/10) 30).events.map (fun e => e.time_sec) = [3/250]
    ∧ (detect_precise_events 257 [0, 1] (fun _ => 0) (fun _ => 0)
        (8/10) 30).duration_sec = 3/250
    ∧ (257 : ℚ) / 22050 < 3/250 := by
  refine ⟨?_, ?_, by norm_num⟩
  · norm_num [detect_precise_events, detectOnsets, onsetDetect,
      effectiveThreshold, pickPeaks, gapOk, frameTimeMs, normalizeOnsets,
      listMax, mkPreciseEvent, pyTrunc, pyRound, round1, round3, Int.fract,
      List.enum, List.enumFrom, List.filter_cons, List.filterMap_cons,
      max_def]
  · show round3 ((257 : ℚ) / 22050) = 3/250
    norm_num [round3, pyRound, Int.fract]

end HapticGuess
